import Mathlib

/-!
Shallow embedding of the Trusted Advisor provider Lambdas of this repository:
the chunked response streamer (streamFunctionResponse), the paginated
findings aggregation (get_trusted_advisor_findings / get_security_findings /
get_resource_list) and the response envelope construction of the three
handlers.

Modelling conventions, chosen to mirror the JavaScript source:
- a JavaScript string is a list of UTF-16 code units; each unit is modelled
  by a Lean Char (the development only ever instantiates characters from the
  basic multilingual plane, where one code point is one code unit, and the
  string length and slice operations of the source count exactly these
  units);
- a JavaScript number field that may be undefined or NaN is an Option Int:
  none stands for the absent or NaN value, some n for an ordinary number
  (the source only ever manipulates integral amounts in the claims at hand);
- undefined-propagating member access (the source operator chain a?.b) is
  Option.bind, and the defaulting idiom (x || fallback) is made explicit
  for each type below;
- a remote call that can throw is an Except String with the thrown message;
  the planned responses of the remote service for one invocation are given
  as the list of outcomes of the successive calls.
-/

namespace CloudReportAgent

/-- JavaScript defaulting idiom (x || fallback) for strings: undefined and the
empty string are falsy, every other string is returned unchanged. -/
def jsOrEmpty : Option String → String
  | none => ""
  | some s => if s = "" then "" else s

/-- JavaScript defaulting idiom (x || 0) for numbers: undefined and NaN
(both modelled as none) and 0 are falsy and give 0. -/
def jsOr0 : Option Int → Int
  | none => 0
  | some v => v

/-- JavaScript addition on possibly absent numbers: if either operand is
undefined or NaN the result is NaN (modelled as none). -/
def jsAdd : Option Int → Option Int → Option Int
  | some a, some b => some (a + b)
  | _, _ => none

/-- Truthiness of a pagination token as tested by the source (the idiom
is a double negation of the token): undefined and the empty string are
falsy, every other string is truthy. -/
def truthy : Option String → Bool
  | none => false
  | some s => s != ""

/-- Number of UTF-8 bytes the sink actually transmits for a character list
(the quantity the source logs through the byte length helper of Buffer).
For a BMP scalar this is its UTF-8 size of 1 to 3 bytes. -/
def utf8Length (s : List Char) : Nat :=
  (s.map Char.utf8Size).sum

/-! ### JSON values and their serialization

The source serializes every payload with the stock JSON stringifier.
The model follows its output exactly: no whitespace, object keys in
insertion order, strings escaped with the standard two-character escapes,
remaining control characters as a four-digit hexadecimal escape, NaN
rendered as null, and all other characters (ASCII or not) copied through
unescaped. -/

inductive Json where
  | null
  | bool (b : Bool)
  | num (n : Int)
  | str (s : List Char)
  | arr (elements : List Json)
  | obj (fields : List (List Char × Json))

/-- Lowercase hexadecimal digit, as produced by the JSON string escaper. -/
def hexDigit (n : Nat) : Char :=
  if n < 10 then Char.ofNat (48 + n) else Char.ofNat (87 + n)

/-- JSON escape of one character, exactly as the stock stringifier emits
it: the two-character escapes for quote, backslash and the named control
characters, a \u00XX escape for the remaining control characters, and the
character itself (ASCII or not) in every other case. -/
def escapeChar (c : Char) : List Char :=
  if c = '"' then ['\\', '"']
  else if c = '\\' then ['\\', '\\']
  else if c = '\x08' then ['\\', 'b']
  else if c = '\x0c' then ['\\', 'f']
  else if c = '\n' then ['\\', 'n']
  else if c = '\r' then ['\\', 'r']
  else if c = '\t' then ['\\', 't']
  else if c.toNat < 32 then ['\\', 'u', '0', '0', hexDigit (c.toNat / 16), hexDigit (c.toNat % 16)]
  else [c]

/-- JSON escape of a whole string, one character at a time. -/
def escapeString : List Char → List Char
  | [] => []
  | c :: cs => escapeChar c ++ escapeString cs

mutual

/-- The JSON serialization used by every payload and envelope of the
source: compact output with no inserted whitespace. -/
def stringify : Json → List Char
  | .null => "null".toList
  | .bool true => "true".toList
  | .bool false => "false".toList
  | .num n => (toString n).toList
  | .str s => '"' :: escapeString s ++ ['"']
  | .arr xs => '[' :: joinComma (stringifyArray xs) ++ [']']
  | .obj fs => '\x7b' :: joinComma (stringifyFields fs) ++ ['\x7d']

/-- Comma-separated concatenation of already serialized members. -/
def joinComma : List (List Char) → List Char
  | [] => []
  | [x] => x
  | x :: y :: xs => x ++ ',' :: joinComma (y :: xs)

/-- Serialization of the elements of a JSON array. -/
def stringifyArray : List Json → List (List Char)
  | [] => []
  | x :: xs => stringify x :: stringifyArray xs

/-- Serialization of the key / value fields of a JSON object. -/
def stringifyFields : List (List Char × Json) → List (List Char)
  | [] => []
  | (k, v) :: fs => ('"' :: escapeString k ++ '"' :: ':' :: stringify v) :: stringifyFields fs

end

/-- A possibly NaN number as it appears in the serialized output: the
stock stringifier renders NaN as null. -/
def jsNumToJson : Option Int → Json
  | none => Json.null
  | some n => Json.num n

/-! ### Chunked response streamer

Model of streamFunctionResponse. The source turns the serialized string
into a readable stream; for a string source that stream yields the whole
string as one chunk, so the loop body runs once: if the string is longer
than the chunk size it is sliced into consecutive slices of at most
CHUNK_SIZE units, otherwise it is written as is; the sink is closed once
after the loop. The source measures and slices with the string length and
slice operations, which count UTF-16 code units. -/

/-- The configured chunk size of the source: 25 * 1024 = 25600. -/
def CHUNK_SIZE : Nat := 25 * 1024

/-- The inner slicing loop of streamFunctionResponse: slices of CHUNK_SIZE
units starting at 0, CHUNK_SIZE, 2 * CHUNK_SIZE, ... -/
def sliceChunks (s : List Char) : List (List Char) :=
  if s = [] then [] else s.take CHUNK_SIZE :: sliceChunks (s.drop CHUNK_SIZE)
termination_by s.length
decreasing_by
  simp only [List.length_drop, CHUNK_SIZE]
  rename_i h
  have : 0 < s.length := List.length_pos.mpr h
  omega

/-- The chunks streamFunctionResponse writes for a serialized string: the
slicing loop when the string exceeds the chunk size, a single write of the
whole string otherwise. -/
def streamChunks (s : List Char) : List (List Char) :=
  if s.length > CHUNK_SIZE then sliceChunks s else [s]

/-- One observable action on the response sink: a chunk write, or the
end-of-stream signal. -/
inductive SinkEvent where
  | write (chunk : List Char)
  | done
deriving DecidableEq

/-- The ordered actions streamFunctionResponse performs on the sink: every
chunk written in order by an awaited sequential write, then exactly one
end-of-stream signal. -/
def streamEvents (s : List Char) : List SinkEvent :=
  (streamChunks s).map SinkEvent.write ++ [SinkEvent.done]

/-! ### Remote data model

Shapes of the remote records consumed by the handlers, with an Option for
every field the source guards against being absent. The summaries list of
a recommendations page is modelled as present, per the remote API
contract assumed by the cost handler, which iterates it unguarded. -/

structure CostAggregates where
  estimatedMonthlySavings : Option Int
deriving DecidableEq

structure PillarAggregates where
  costOptimizing : Option CostAggregates
deriving DecidableEq

structure ResourcesAggregates where
  errorCount : Option Int
  warningCount : Option Int
deriving DecidableEq

/-- One item of a recommendations list page. -/
structure Summary where
  arn : String
  name : String
  id : String
  status : String
  pillarSpecificAggregates : Option PillarAggregates
  resourcesAggregates : Option ResourcesAggregates
deriving DecidableEq

/-- Metadata of one resource inside a recommendation detail. -/
structure Metadata where
  region : Option String
deriving DecidableEq

/-- One resource inside a recommendation detail. -/
structure DetailResource where
  resourceId : Option String
  status : String
  metadata : Option Metadata
deriving DecidableEq

/-- One recommended action inside a recommendation detail. -/
structure RecommendedAction where
  description : Option String
deriving DecidableEq

/-- The detail record of one recommendation. -/
structure RecommendationDetail where
  description : Option String
  recommendedActions : Option (List RecommendedAction)
  resources : Option (List DetailResource)
deriving DecidableEq

/-- The response of the detail fetch call. -/
structure DetailResponse where
  recommendation : Option RecommendationDetail
deriving DecidableEq

/-- One page of the recommendations list call. -/
structure Page where
  recommendationSummaries : List Summary
  nextToken : Option String
deriving DecidableEq

/-- The cost aggregates of a summary as the source reads them: the
undefined-propagating access into the pillar aggregates, defaulted to an
empty record. -/
def costAggOf (r : Summary) : CostAggregates :=
  (r.pillarSpecificAggregates.bind (fun p => p.costOptimizing)).getD { estimatedMonthlySavings := none }

/-- The resource aggregates of a summary, defaulted to an empty record. -/
def resourceAggOf (r : Summary) : ResourcesAggregates :=
  r.resourcesAggregates.getD { errorCount := none, warningCount := none }

/-- The flattened resource record built from one detail resource, with the
defaults of the source for absent id, region and metadata. -/
structure ResourceOut where
  resourceId : String
  region : String
  status : String
  metadata : Metadata
deriving DecidableEq

def mapResource (r : DetailResource) : ResourceOut :=
  { resourceId := jsOrEmpty r.resourceId
    region := jsOrEmpty (r.metadata.bind (fun m => m.region))
    status := r.status
    metadata := r.metadata.getD { region := none } }

/-- A cost finding, one per successfully enriched summary. The savings
field keeps the possibly-NaN number type to make its always-numeric
construction a provable statement. -/
structure Finding where
  recommendationIdentifier : String
  checkName : String
  checkId : String
  status : String
  description : String
  recommendedAction : String
  resourceCount : Option Int
  estimatedMonthlySavings : Option Int
  resources : List ResourceOut
deriving DecidableEq

/-- A security finding: the same shape without the savings field. -/
structure SecFinding where
  recommendationIdentifier : String
  checkName : String
  checkId : String
  status : String
  description : String
  recommendedAction : String
  resourceCount : Option Int
  resources : List ResourceOut
deriving DecidableEq

/-- Construction of one cost finding from a summary and its detail
response, field by field as the cost handler pushes it. -/
def mkFinding (r : Summary) (d : DetailResponse) : Finding :=
  { recommendationIdentifier := r.arn
    checkName := r.name
    checkId := r.id
    status := r.status
    description := jsOrEmpty (d.recommendation.bind (fun dr => dr.description))
    recommendedAction :=
      jsOrEmpty (((d.recommendation.bind (fun dr => dr.recommendedActions)).bind List.head?).bind
        (fun a => a.description))
    resourceCount := jsAdd (resourceAggOf r).errorCount (resourceAggOf r).warningCount
    estimatedMonthlySavings := some (jsOr0 (costAggOf r).estimatedMonthlySavings)
    resources :=
      match d.recommendation.bind (fun dr => dr.resources) with
      | none => []
      | some l => l.map mapResource }

/-- Construction of one security finding, as the security handler pushes
it. -/
def mkSecFinding (r : Summary) (d : DetailResponse) : SecFinding :=
  { recommendationIdentifier := r.arn
    checkName := r.name
    checkId := r.id
    status := r.status
    description := jsOrEmpty (d.recommendation.bind (fun dr => dr.description))
    recommendedAction :=
      jsOrEmpty (((d.recommendation.bind (fun dr => dr.recommendedActions)).bind List.head?).bind
        (fun a => a.description))
    resourceCount := jsAdd (resourceAggOf r).errorCount (resourceAggOf r).warningCount
    resources :=
      match d.recommendation.bind (fun dr => dr.resources) with
      | none => []
      | some l => l.map mapResource }

/-! ### Per-item enrichment

The inner loop over the summaries of one page: a detail fetch per summary;
a fetch that throws (modelled as none) is caught, logged and the summary
is skipped, the loop continues with the remaining summaries. -/

def enrichCost (fetch : Summary → Option DetailResponse) : List Summary → List Finding
  | [] => []
  | r :: rest =>
    match fetch r with
    | some d => mkFinding r d :: enrichCost fetch rest
    | none => enrichCost fetch rest

def enrichSec (fetch : Summary → Option DetailResponse) : List Summary → List SecFinding
  | [] => []
  | r :: rest =>
    match fetch r with
    | some d => mkSecFinding r d :: enrichSec fetch rest
    | none => enrichSec fetch rest

/-! ### Sorting by savings

The cost handler sorts the findings with the stock array sort under the
comparator subtracting the defaulted savings of the first argument from
those of the second. The stock sort is stable, so its output is the unique
stable non-increasing reordering under that key; the insertion sort below
computes exactly that reordering. -/

/-- The sort key the comparator of the source reads from a finding: the
savings defaulted through the (x || 0) idiom. -/
def savingsKey (f : Finding) : Int :=
  jsOr0 f.estimatedMonthlySavings

/-- Stable descending insertion: the inserted finding goes before the
first already placed finding whose key is not larger, hence after every
earlier finding with a strictly larger key and before later ties. -/
def insertBySavings (f : Finding) : List Finding → List Finding
  | [] => [f]
  | g :: gs =>
    if savingsKey g ≤ savingsKey f then f :: g :: gs
    else g :: insertBySavings f gs

/-- The stable non-increasing sort by savings applied by the cost
handler. -/
def sortBySavings : List Finding → List Finding
  | [] => []
  | f :: fs => insertBySavings f (sortBySavings fs)

/-! ### Pagination -/

/-- The pagination loop of get_trusted_advisor_findings over the planned
outcomes of the successive list calls: a throwing call aborts the whole
loop, discarding the findings accumulated so far; an ok page has its
summaries enriched in order, then the loop continues exactly when the
returned token is truthy. -/
def getFindingsGo (fetch : Summary → Option DetailResponse) :
    List (Except String Page) → Except String (List Finding)
  | [] => .ok []
  | .error msg :: _ => .error msg
  | .ok page :: rest =>
    let fs := enrichCost fetch page.recommendationSummaries
    if truthy page.nextToken then
      match getFindingsGo fetch rest with
      | .ok more => .ok (fs ++ more)
      | .error msg => .error msg
    else .ok fs

/-- get_trusted_advisor_findings: the pagination loop followed by the sort
by savings; the internal catch of the source re-throws, so an error
propagates unchanged. -/
def getFindings (fetch : Summary → Option DetailResponse)
    (plan : List (Except String Page)) : Except String (List Finding) :=
  (getFindingsGo fetch plan).map sortBySavings

/-- The pagination loop of get_security_findings, identical in control
flow to the cost loop, without the final sort. -/
def getSecFindings (fetch : Summary → Option DetailResponse) :
    List (Except String Page) → Except String (List SecFinding)
  | [] => .ok []
  | .error msg :: _ => .error msg
  | .ok page :: rest =>
    let fs := enrichSec fetch page.recommendationSummaries
    if truthy page.nextToken then
      match getSecFindings fetch rest with
      | .ok more => .ok (fs ++ more)
      | .error msg => .error msg
    else .ok fs

/-- The savings total of the cost handler: a fold with the (x || 0)
default applied to each finding, exactly as the source accumulates it.
The two-decimal rounding of the source is the identity on the integral
amounts of the model. -/
def totalSavings (l : List Finding) : Int :=
  l.foldl (fun s f => s + jsOr0 f.estimatedMonthlySavings) 0

/-- The same reduction without the (x || 0) guard on the field: its value
is a number (some) exactly because every constructed finding carries a
numeric savings field. -/
def rawSavingsSum (l : List Finding) : Option Int :=
  l.foldl (fun s f => jsAdd s f.estimatedMonthlySavings) (some 0)

/-! ### Serialization of the payloads -/

def metadataToJson (m : Metadata) : Json :=
  Json.obj (match m.region with
    | none => []
    | some s => [("region".toList, Json.str s.toList)])

def resourceToJson (r : ResourceOut) : Json :=
  Json.obj
    [ ("resourceId".toList, Json.str r.resourceId.toList)
    , ("region".toList, Json.str r.region.toList)
    , ("status".toList, Json.str r.status.toList)
    , ("metadata".toList, metadataToJson r.metadata) ]

def findingToJson (f : Finding) : Json :=
  Json.obj
    [ ("recommendationIdentifier".toList, Json.str f.recommendationIdentifier.toList)
    , ("checkName".toList, Json.str f.checkName.toList)
    , ("checkId".toList, Json.str f.checkId.toList)
    , ("status".toList, Json.str f.status.toList)
    , ("description".toList, Json.str f.description.toList)
    , ("recommendedAction".toList, Json.str f.recommendedAction.toList)
    , ("resourceCount".toList, jsNumToJson f.resourceCount)
    , ("estimatedMonthlySavings".toList, jsNumToJson f.estimatedMonthlySavings)
    , ("resources".toList, Json.arr (f.resources.map resourceToJson)) ]

def secFindingToJson (f : SecFinding) : Json :=
  Json.obj
    [ ("recommendationIdentifier".toList, Json.str f.recommendationIdentifier.toList)
    , ("checkName".toList, Json.str f.checkName.toList)
    , ("checkId".toList, Json.str f.checkId.toList)
    , ("status".toList, Json.str f.status.toList)
    , ("description".toList, Json.str f.description.toList)
    , ("recommendedAction".toList, Json.str f.recommendedAction.toList)
    , ("resourceCount".toList, jsNumToJson f.resourceCount)
    , ("resources".toList, Json.arr (f.resources.map resourceToJson)) ]

/-- The success payload of the cost handler, stringified into the body:
the checks object with its summary and the ordered findings. The
lastUpdated timestamp is the formatted clock reading, passed in as an
opaque string. -/
def checksJson (findings : List Finding) (now : String) : Json :=
  Json.obj
    [ ("checks".toList, Json.obj
        [ ("summary".toList, Json.obj
            [ ("totalFindings".toList, Json.num (findings.length : Int))
            , ("totalPotentialSavings".toList, Json.num (totalSavings findings))
            , ("lastUpdated".toList, Json.str now.toList) ])
        , ("findings".toList, Json.arr (findings.map findingToJson)) ]) ]

/-- The success payload of the security handler. -/
def secChecksJson (findings : List SecFinding) (now : String) : Json :=
  Json.obj
    [ ("checks".toList, Json.obj
        [ ("summary".toList, Json.obj
            [ ("totalFindings".toList, Json.num (findings.length : Int))
            , ("lastUpdated".toList, Json.str now.toList) ])
        , ("findings".toList, Json.arr (findings.map secFindingToJson)) ]) ]

/-- The body of every error envelope: the stringified object carrying the
thrown message under the error key. -/
def errJson (msg : String) : Json :=
  Json.obj [("error".toList, Json.str msg.toList)]

/-! ### Response envelope -/

/-- The inbound event of a provider invocation, with every field the
runtime may omit made optional. -/
structure Param where
  name : String
  value : String
deriving DecidableEq

structure AgentEvent where
  actionGroup : Option String
  function : Option String
  parameters : Option (List Param)
deriving DecidableEq

structure TextContent where
  body : List Char
deriving DecidableEq

structure ResponseBody where
  TEXT : TextContent
deriving DecidableEq

structure FunctionResponse where
  responseBody : ResponseBody
deriving DecidableEq

/-- The response part of the envelope. The function field keeps the
optional type of the source: the handlers copy the inbound field without
a default, so it is absent whenever the event omits it (and the
serializer then drops the key). -/
structure ResponsePart where
  actionGroup : String
  function : Option String
  responseState : Option String
  functionResponse : FunctionResponse
deriving DecidableEq

structure Envelope where
  messageVersion : String
  response : ResponsePart
deriving DecidableEq

/-- The success envelope each handler builds around an already
stringified body. -/
def successEnvelope (ev : AgentEvent) (body : List Char) : Envelope :=
  { messageVersion := "1.0"
    response :=
      { actionGroup := jsOrEmpty ev.actionGroup
        function := ev.function
        responseState := none
        functionResponse := { responseBody := { TEXT := { body := body } } } } }

/-- The error envelope each handler builds in its catch block: the same
identity fields, the REPROMPT marker and the stringified error body. -/
def errorEnvelope (ev : AgentEvent) (msg : String) : Envelope :=
  { messageVersion := "1.0"
    response :=
      { actionGroup := jsOrEmpty ev.actionGroup
        function := ev.function
        responseState := some "REPROMPT"
        functionResponse := { responseBody := { TEXT := { body := stringify (errJson msg) } } } } }

/-! ### Handlers -/

/-- The cost handler of part_001: aggregate the findings over the planned
list-call outcomes, then build the success envelope, or the error envelope
with the thrown message if the pagination failed. -/
def costHandler (ev : AgentEvent) (plan : List (Except String Page))
    (fetch : Summary → Option DetailResponse) (now : String) : Envelope :=
  match getFindings fetch plan with
  | .ok findings => successEnvelope ev (stringify (checksJson findings now))
  | .error msg => errorEnvelope ev msg

/-- The security handler, with the identical envelope construction. -/
def secHandler (ev : AgentEvent) (plan : List (Except String Page))
    (fetch : Summary → Option DetailResponse) (now : String) : Envelope :=
  match getSecFindings fetch plan with
  | .ok findings => successEnvelope ev (stringify (secChecksJson findings now))
  | .error msg => errorEnvelope ev msg

/-! ### Resource list provider -/

/-- One item of a resource list page. -/
structure RLResource where
  id : String
  arn : String
  awsResourceId : String
  regionCode : String
  status : String
  metadata : List (String × String)
  lastUpdatedAt : String
  exclusionStatus : String
  recommendationArn : String
deriving DecidableEq

/-- The renamed record the handler pushes for one resource summary. -/
structure RRecord where
  id : String
  taResourceArn : String
  awsResourceId : String
  regionCode : String
  status : String
  metadata : List (String × String)
  lastUpdatedAt : String
  exclusionStatus : String
  recommendationArn : String
deriving DecidableEq

def mapRLResource (r : RLResource) : RRecord :=
  { id := r.id
    taResourceArn := r.arn
    awsResourceId := r.awsResourceId
    regionCode := r.regionCode
    status := r.status
    metadata := r.metadata
    lastUpdatedAt := r.lastUpdatedAt
    exclusionStatus := r.exclusionStatus
    recommendationArn := r.recommendationArn }

/-- One page of the resource list call; the summaries may be absent, and
the handler only pushes when they are present. -/
structure RLPage where
  recommendationResourceSummaries : Option (List RLResource)
  nextToken : Option String
deriving DecidableEq

/-- The records one page contributes: nothing when the summaries field is
absent, the mapped summaries otherwise. -/
def rlPageItems (p : RLPage) : List RRecord :=
  match p.recommendationResourceSummaries with
  | none => []
  | some l => l.map mapRLResource

/-- The pagination loop of get_resource_list over the planned outcomes of
the successive list calls, together with the trace of the token slot sent
with each issued request (the first request carries no token, each later
one the token of the preceding page). A throwing call aborts the loop and
discards the resources accumulated so far. -/
def runResourceList : List (Except String RLPage) → Option String →
    Except String (List RRecord) × List (Option String)
  | [], _ => (.ok [], [])
  | .error msg :: _, tok => (.error msg, [tok])
  | .ok page :: rest, tok =>
    if truthy page.nextToken then
      let next := runResourceList rest page.nextToken
      (next.1.map (fun more => rlPageItems page ++ more), tok :: next.2)
    else (.ok (rlPageItems page), [tok])

/-- The success payload of the resource list handler. -/
def resourcesJson (resources : List RRecord) (now : String) : Json :=
  Json.obj
    [ ("resourcesData".toList, Json.obj
        [ ("summary".toList, Json.obj
            [ ("totalResources".toList, Json.num (resources.length : Int))
            , ("lastUpdated".toList, Json.str now.toList) ])
        , ("resources".toList, Json.arr (resources.map (fun r =>
            Json.obj
              [ ("id".toList, Json.str r.id.toList)
              , ("taResourceArn".toList, Json.str r.taResourceArn.toList)
              , ("awsResourceId".toList, Json.str r.awsResourceId.toList)
              , ("regionCode".toList, Json.str r.regionCode.toList)
              , ("status".toList, Json.str r.status.toList)
              , ("metadata".toList, Json.obj (r.metadata.map (fun kv =>
                  (kv.1.toList, Json.str kv.2.toList))))
              , ("lastUpdatedAt".toList, Json.str r.lastUpdatedAt.toList)
              , ("exclusionStatus".toList, Json.str r.exclusionStatus.toList)
              , ("recommendationArn".toList, Json.str r.recommendationArn.toList) ]))) ]) ]

/-- The recommendationIdentifier parameter lookup of the resource list
handler: the undefined-propagating find over the optional parameters
array. -/
def extractId (ev : AgentEvent) : Option String :=
  (ev.parameters.bind (fun ps => ps.find? (fun p => p.name == "recommendationIdentifier"))).map
    (fun p => p.value)

/-- The resource list handler: validate the identifier (absent or empty is
falsy and throws before any remote call), then paginate and build the
success or error envelope. The second component counts the remote list
calls actually issued. -/
def rlHandler (ev : AgentEvent) (plan : List (Except String RLPage)) (now : String) :
    Envelope × Nat :=
  match extractId ev with
  | none => (errorEnvelope ev "recommendationIdentifier is required", 0)
  | some v =>
    if v = "" then (errorEnvelope ev "recommendationIdentifier is required", 0)
    else
      let run := runResourceList plan none
      match run.1 with
      | .ok resources => (successEnvelope ev (stringify (resourcesJson resources now)), run.2.length)
      | .error msg => (errorEnvelope ev msg, run.2.length)

/-! ## Lemmas about the chunked streamer -/

lemma sliceChunks_nil : sliceChunks [] = [] := by
  unfold sliceChunks
  simp

lemma sliceChunks_cons (s : List Char) (h : s ≠ []) :
    sliceChunks s = s.take CHUNK_SIZE :: sliceChunks (s.drop CHUNK_SIZE) := by
  rw [sliceChunks.eq_def]
  simp [h]

lemma sliceChunks_flatten_fuel :
    ∀ (n : Nat) (s : List Char), s.length ≤ n → (sliceChunks s).flatten = s := by
  intro n
  induction n with
  | zero =>
    intro s hs
    have hnil : s = [] := by
      cases s with
      | nil => rfl
      | cons a t => simp at hs
    subst hnil
    simp [sliceChunks_nil]
  | succ n ih =>
    intro s hs
    by_cases h : s = []
    · subst h; simp [sliceChunks_nil]
    · rw [sliceChunks_cons s h]
      simp only [List.flatten_cons]
      rw [ih (s.drop CHUNK_SIZE) ?_]
      · exact List.take_append_drop _ _
      · have h1 : 0 < s.length := List.length_pos.mpr h
        simp only [List.length_drop, CHUNK_SIZE]
        omega

lemma sliceChunks_flatten (s : List Char) : (sliceChunks s).flatten = s :=
  sliceChunks_flatten_fuel s.length s (Nat.le_refl _)

lemma sliceChunks_length_le_fuel :
    ∀ (n : Nat) (s : List Char), s.length ≤ n →
      ∀ c ∈ sliceChunks s, c.length ≤ CHUNK_SIZE := by
  intro n
  induction n with
  | zero =>
    intro s hs
    have hnil : s = [] := by
      cases s with
      | nil => rfl
      | cons a t => simp at hs
    subst hnil
    simp [sliceChunks_nil]
  | succ n ih =>
    intro s hs c hc
    by_cases h : s = []
    · subst h; simp [sliceChunks_nil] at hc
    · rw [sliceChunks_cons s h] at hc
      rcases List.mem_cons.mp hc with hc | hc
      · subst hc
        simp
      · refine ih (s.drop CHUNK_SIZE) ?_ c hc
        have h1 : 0 < s.length := List.length_pos.mpr h
        simp only [List.length_drop, CHUNK_SIZE]
        omega

lemma streamChunks_flatten (s : List Char) : (streamChunks s).flatten = s := by
  unfold streamChunks
  split
  · exact sliceChunks_flatten s
  · simp

lemma streamChunks_length_le (s : List Char) :
    ∀ c ∈ streamChunks s, c.length ≤ CHUNK_SIZE := by
  unfold streamChunks
  split
  · exact sliceChunks_length_le_fuel s.length s (Nat.le_refl _)
  · rename_i h
    intro c hc
    rcases List.mem_cons.mp hc with hc | hc
    · subst hc
      omega
    · simp at hc

lemma streamChunks_small (s : List Char) (h : ¬ s.length > CHUNK_SIZE) :
    streamChunks s = [s] := by
  unfold streamChunks
  simp [h]

/-- C1 (amended). For every response object, the chunks streamFunctionResponse
writes concatenate, in emission order, to the full JSON serialization of the
object; no chunk exceeds the configured chunk size of 25600 UTF-16 code units
(the units that the length and slice operations of the source count); a
serialization shorter than the chunk size is written as exactly one chunk; and
the end-of-stream signal is issued exactly once, as the last event after the
final chunk. -/
theorem claim_C1 (v : Json) :
    (streamChunks (stringify v)).flatten = stringify v
    ∧ (∀ c ∈ streamChunks (stringify v), c.length ≤ CHUNK_SIZE)
    ∧ ((stringify v).length < CHUNK_SIZE → streamChunks (stringify v) = [stringify v])
    ∧ (streamEvents (stringify v)).count SinkEvent.done = 1
    ∧ (streamEvents (stringify v)).getLast? = some SinkEvent.done := by
  refine ⟨streamChunks_flatten _, streamChunks_length_le _, ?_, ?_, ?_⟩
  · intro h
    exact streamChunks_small _ (by omega)
  · have hz : ((streamChunks (stringify v)).map SinkEvent.write).count SinkEvent.done = 0 := by
      refine List.count_eq_zero.mpr ?_
      simp
    simp [streamEvents, List.count_append, hz]
  · simp [streamEvents, List.getLast?_concat]

/-- Witness for C1: a concrete small response object is written as a single
chunk equal to its whole serialization. -/
theorem claim_C1_witness :
    streamChunks (stringify (Json.str "ok".toList)) = [stringify (Json.str "ok".toList)] :=
  (claim_C1 (Json.str "ok".toList)).2.2.1 (by decide)

/-- The two-byte character used by the counterexample to C1 as frozen: one
UTF-16 code unit, two UTF-8 bytes. -/
def accentE : Char := 'é'

/-- A response object whose JSON serialization is 25600 code units long:
a string value of 25598 two-byte characters plus the enclosing quotes. -/
def cexObj : Json := Json.str (List.replicate 25598 accentE)

lemma escapeChar_accentE : escapeChar accentE = [accentE] := by decide

lemma escapeString_replicate_accentE (n : Nat) :
    escapeString (List.replicate n accentE) = List.replicate n accentE := by
  induction n with
  | zero => simp [escapeString]
  | succ n ih => simp [List.replicate_succ, escapeString, escapeChar_accentE, ih]

lemma stringify_str (s : List Char) :
    stringify (Json.str s) = '"' :: escapeString s ++ ['"'] := rfl

lemma stringify_cexObj :
    stringify cexObj = '"' :: List.replicate 25598 accentE ++ ['"'] := by
  unfold cexObj
  rw [stringify_str, escapeString_replicate_accentE]

lemma stringify_cexObj_length : (stringify cexObj).length = 25600 := by
  rw [stringify_cexObj]
  rw [List.length_append, List.length_cons, List.length_replicate]
  rfl

lemma utf8Size_accentE : accentE.utf8Size = 2 := by decide

lemma stringify_cexObj_utf8 : utf8Length (stringify cexObj) = 51198 := by
  rw [stringify_cexObj]
  unfold utf8Length
  rw [List.map_append, List.map_cons, List.map_replicate]
  rw [List.sum_append, List.sum_cons, List.sum_replicate, utf8Size_accentE, smul_eq_mul]
  norm_num
  decide

lemma streamChunks_cexObj : streamChunks (stringify cexObj) = [stringify cexObj] := by
  apply streamChunks_small
  rw [stringify_cexObj_length]
  simp [CHUNK_SIZE]

/-- Counterexample to C1 as frozen: the claim bounds every chunk by 25600
bytes, but the source slices by UTF-16 code units while the sink transmits
UTF-8 bytes, so the single chunk written for this concrete response object
carries 51198 bytes. -/
theorem claim_C1_cex :
    ¬ (∀ c ∈ streamChunks (stringify cexObj), utf8Length c ≤ CHUNK_SIZE) := by
  intro h
  have h1 := h (stringify cexObj) (by rw [streamChunks_cexObj]; exact List.mem_singleton_self _)
  rw [stringify_cexObj_utf8] at h1
  simp [CHUNK_SIZE] at h1

/-! ## Lemmas about the paginators -/

/-- Running the resource list loop over planned pages whose front tokens
are all truthy and whose last token is falsy accumulates exactly the
concatenation of all page items, issues one request per page carrying the
token of the preceding page, and never consults entries planned beyond
the terminating page. -/
lemma runResourceList_ok (front : List RLPage) (lastP : RLPage)
    (extra : List (Except String RLPage)) (tok : Option String)
    (hf : ∀ p ∈ front, truthy p.nextToken = true)
    (hl : truthy lastP.nextToken = false) :
    runResourceList ((front ++ [lastP]).map Except.ok ++ extra) tok
      = (.ok (((front ++ [lastP]).map rlPageItems).flatten),
         tok :: front.map (fun p => p.nextToken)) := by
  induction front generalizing tok with
  | nil =>
    simp only [List.nil_append, List.map_cons, List.map_nil, List.cons_append]
    rw [runResourceList]
    simp [hl]
  | cons p front ih =>
    have hp : truthy p.nextToken = true := hf p (List.mem_cons_self p front)
    have hrest : ∀ q ∈ front, truthy q.nextToken = true := fun q hq =>
      hf q (List.mem_cons_of_mem p hq)
    have ih2 := ih p.nextToken hrest
    simp only [List.map_append, List.map_cons, List.map_nil, List.append_assoc,
      List.cons_append, List.nil_append] at ih2 ⊢
    rw [runResourceList]
    simp [hp, ih2, Except.map]

/-- The cost pagination loop over all-ok planned pages with truthy front
tokens and a falsy last token accumulates the concatenation of the
per-page enrichment results, ignoring entries planned beyond the
terminating page. -/
lemma getFindingsGo_ok (fetch : Summary → Option DetailResponse)
    (front : List Page) (lastP : Page) (extra : List (Except String Page))
    (hf : ∀ p ∈ front, truthy p.nextToken = true)
    (hl : truthy lastP.nextToken = false) :
    getFindingsGo fetch ((front ++ [lastP]).map Except.ok ++ extra)
      = .ok (((front ++ [lastP]).map
          (fun p => enrichCost fetch p.recommendationSummaries)).flatten) := by
  induction front with
  | nil =>
    simp only [List.nil_append, List.map_cons, List.map_nil, List.cons_append]
    rw [getFindingsGo]
    simp [hl]
  | cons p front ih =>
    have hp : truthy p.nextToken = true := hf p (List.mem_cons_self p front)
    have hrest : ∀ q ∈ front, truthy q.nextToken = true := fun q hq =>
      hf q (List.mem_cons_of_mem p hq)
    have ih2 := ih hrest
    simp only [List.map_append, List.map_cons, List.map_nil, List.append_assoc,
      List.cons_append, List.nil_append] at ih2 ⊢
    rw [getFindingsGo]
    simp [hp, ih2]

/-- Like the previous lemma, for the security pagination loop. -/
lemma getSecFindings_ok (fetch : Summary → Option DetailResponse)
    (front : List Page) (lastP : Page) (extra : List (Except String Page))
    (hf : ∀ p ∈ front, truthy p.nextToken = true)
    (hl : truthy lastP.nextToken = false) :
    getSecFindings fetch ((front ++ [lastP]).map Except.ok ++ extra)
      = .ok (((front ++ [lastP]).map
          (fun p => enrichSec fetch p.recommendationSummaries)).flatten) := by
  induction front with
  | nil =>
    simp only [List.nil_append, List.map_cons, List.map_nil, List.cons_append]
    rw [getSecFindings]
    simp [hl]
  | cons p front ih =>
    have hp : truthy p.nextToken = true := hf p (List.mem_cons_self p front)
    have hrest : ∀ q ∈ front, truthy q.nextToken = true := fun q hq =>
      hf q (List.mem_cons_of_mem p hq)
    have ih2 := ih hrest
    simp only [List.map_append, List.map_cons, List.map_nil, List.append_assoc,
      List.cons_append, List.nil_append] at ih2 ⊢
    rw [getSecFindings]
    simp [hp, ih2]

/-- A throwing list call reached through a front of truthy-token pages
aborts the whole cost pagination with the thrown message. -/
lemma getFindingsGo_error (fetch : Summary → Option DetailResponse)
    (front : List Page) (msg : String) (rest : List (Except String Page))
    (hf : ∀ p ∈ front, truthy p.nextToken = true) :
    getFindingsGo fetch (front.map Except.ok ++ (Except.error msg :: rest))
      = .error msg := by
  induction front with
  | nil =>
    simp only [List.map_nil, List.nil_append]
    rw [getFindingsGo]
  | cons p front ih =>
    have hp : truthy p.nextToken = true := hf p (List.mem_cons_self p front)
    have hrest : ∀ q ∈ front, truthy q.nextToken = true := fun q hq =>
      hf q (List.mem_cons_of_mem p hq)
    have ih2 := ih hrest
    simp only [List.map_cons, List.cons_append] at ih2 ⊢
    rw [getFindingsGo]
    simp [hp, ih2]

/-! ## Lemmas about enrichment -/

lemma enrichCost_eq_filterMap (fetch : Summary → Option DetailResponse) (rs : List Summary) :
    enrichCost fetch rs = rs.filterMap (fun r => (fetch r).map (fun d => mkFinding r d)) := by
  induction rs with
  | nil => rfl
  | cons r rest ih =>
    cases h : fetch r <;> simp [enrichCost, h, List.filterMap_cons, ih]

lemma enrichSec_eq_filterMap (fetch : Summary → Option DetailResponse) (rs : List Summary) :
    enrichSec fetch rs = rs.filterMap (fun r => (fetch r).map (fun d => mkSecFinding r d)) := by
  induction rs with
  | nil => rfl
  | cons r rest ih =>
    cases h : fetch r <;> simp [enrichSec, h, List.filterMap_cons, ih]

lemma enrichCost_length (fetch : Summary → Option DetailResponse) (rs : List Summary) :
    (enrichCost fetch rs).length = (rs.filter (fun r => (fetch r).isSome)).length := by
  induction rs with
  | nil => rfl
  | cons r rest ih =>
    cases h : fetch r <;> simp [enrichCost, h, List.filter_cons, ih]

/-! ## Witness fixtures: concrete records used by the witnesses below -/

def wRes : RLResource :=
  { id := "r1", arn := "taArn1", awsResourceId := "vol-1", regionCode := "eu-west-1"
    status := "warning", metadata := [("k", "v")], lastUpdatedAt := "2024-01-01"
    exclusionStatus := "included", recommendationArn := "recArn1" }

def wp1 : RLPage := { recommendationResourceSummaries := some [wRes], nextToken := some "t1" }

def wp2 : RLPage := { recommendationResourceSummaries := none, nextToken := none }

def wDetail : DetailResponse := { recommendation := none }

def wS1 : Summary :=
  { arn := "arn1", name := "n1", id := "i1", status := "warning"
    pillarSpecificAggregates := none, resourcesAggregates := none }

def wS2 : Summary :=
  { arn := "arn2", name := "n2", id := "i2", status := "warning"
    pillarSpecificAggregates := none, resourcesAggregates := none }

def wS3 : Summary :=
  { arn := "arn3", name := "n3", id := "i3", status := "warning"
    pillarSpecificAggregates := none, resourcesAggregates := none }

def cp1 : Page := { recommendationSummaries := [wS1], nextToken := some "t1" }

def cp2 : Page := { recommendationSummaries := [wS2], nextToken := none }

def wFetch : Summary → Option DetailResponse := fun _ => some wDetail

/-- The detail fetch of the partial-failure scenario of the spec: item 2
throws, items 1 and 3 succeed. -/
def wFetchFail : Summary → Option DetailResponse :=
  fun r => if r.arn = "arn2" then none else some wDetail

/-- C2. Over every planned page sequence whose front tokens are truthy and
whose last token is absent or empty, the paginators accumulate exactly the
concatenation of all page items in server order with nothing skipped or
duplicated, issue one list call per page whose token slot carries the
token of the preceding page (none on the first call), stop at the falsy
token (planned entries beyond it are never requested), and the cost
paginator accumulates the per-page enrichment results the same way. -/
theorem claim_C2 (front : List RLPage) (lastP : RLPage)
    (extra : List (Except String RLPage))
    (cfront : List Page) (clast : Page) (cextra : List (Except String Page))
    (fetch : Summary → Option DetailResponse)
    (hf : ∀ p ∈ front, truthy p.nextToken = true)
    (hl : truthy lastP.nextToken = false)
    (hcf : ∀ p ∈ cfront, truthy p.nextToken = true)
    (hcl : truthy clast.nextToken = false) :
    runResourceList ((front ++ [lastP]).map Except.ok ++ extra) none
      = (.ok (((front ++ [lastP]).map rlPageItems).flatten),
         none :: front.map (fun p => p.nextToken))
    ∧ (runResourceList ((front ++ [lastP]).map Except.ok ++ extra) none).2.length
      = (front ++ [lastP]).length
    ∧ getFindingsGo fetch ((cfront ++ [clast]).map Except.ok ++ cextra)
      = .ok (((cfront ++ [clast]).map
          (fun p => enrichCost fetch p.recommendationSummaries)).flatten) := by
  refine ⟨runResourceList_ok front lastP extra none hf hl, ?_, getFindingsGo_ok fetch cfront clast cextra hcf hcl⟩
  rw [runResourceList_ok front lastP extra none hf hl]
  simp

/-- Witness for C2: two concrete pages, the first with a truthy token, the
second terminating; the run returns both page item lists concatenated and
the two issued requests carry no token and then the token of page one. -/
theorem claim_C2_witness :
    runResourceList (([wp1] ++ [wp2]).map Except.ok ++ []) none
      = (.ok ((([wp1] ++ [wp2]).map rlPageItems).flatten),
         none :: [wp1].map (fun p => p.nextToken)) :=
  (claim_C2 [wp1] wp2 [] [cp1] cp2 [] wFetch (by decide) (by decide) (by decide) (by decide)).1

/-- C3. Enrichment yields exactly one finding per summary whose detail
fetch succeeds, in arrival order, dropping exactly the summaries whose
fetch throws, a per-item failure never aborting the rest; and an
invocation whose pagination succeeded still builds a success envelope (no
REPROMPT state) whatever the per-item failures were, in the cost and the
security handler alike. -/
theorem claim_C3 (fetch : Summary → Option DetailResponse) (rs : List Summary)
    (ev : AgentEvent) (front : List Page) (lastP : Page) (now : String)
    (hf : ∀ p ∈ front, truthy p.nextToken = true)
    (hl : truthy lastP.nextToken = false) :
    enrichCost fetch rs = rs.filterMap (fun r => (fetch r).map (fun d => mkFinding r d))
    ∧ enrichSec fetch rs = rs.filterMap (fun r => (fetch r).map (fun d => mkSecFinding r d))
    ∧ (enrichCost fetch rs).length = (rs.filter (fun r => (fetch r).isSome)).length
    ∧ (costHandler ev ((front ++ [lastP]).map Except.ok) fetch now).response.responseState = none
    ∧ (secHandler ev ((front ++ [lastP]).map Except.ok) fetch now).response.responseState = none := by
  refine ⟨enrichCost_eq_filterMap fetch rs, enrichSec_eq_filterMap fetch rs,
    enrichCost_length fetch rs, ?_, ?_⟩
  · have h := getFindingsGo_ok fetch front lastP [] hf hl
    simp only [List.map_append, List.map_cons, List.map_nil, List.append_assoc,
      List.cons_append, List.nil_append, List.append_nil] at h ⊢
    simp [costHandler, getFindings, h, successEnvelope, Except.map]
  · have h := getSecFindings_ok fetch front lastP [] hf hl
    simp only [List.map_append, List.map_cons, List.map_nil, List.append_assoc,
      List.cons_append, List.nil_append, List.append_nil] at h ⊢
    simp [secHandler, h, successEnvelope]

/-- Witness for C3: three concrete summaries whose second detail fetch
throws produce exactly the two findings for items one and three, in
order, and the enriched collection has length 2. -/
theorem claim_C3_witness :
    enrichCost wFetchFail [wS1, wS2, wS3]
      = [wS1, wS2, wS3].filterMap (fun r => (wFetchFail r).map (fun d => mkFinding r d))
    ∧ enrichCost wFetchFail [wS1, wS2, wS3] = [mkFinding wS1 wDetail, mkFinding wS3 wDetail] :=
  ⟨(claim_C3 wFetchFail [wS1, wS2, wS3] { actionGroup := some "X", function := some "Y", parameters := none }
      [cp1] cp2 "ts" (by decide) (by decide)).1, by decide⟩

/-- C4 (amended). On both the success and the error path of every handler,
the envelope echoes the inbound actionGroup defaulted to the empty string
when absent, and echoes the inbound function verbatim with no default: the
field stays absent exactly when the event omits it. -/
theorem claim_C4 (ev : AgentEvent) (plan : List (Except String Page))
    (rlPlan : List (Except String RLPage)) (fetch : Summary → Option DetailResponse)
    (now : String) :
    (costHandler ev plan fetch now).response.actionGroup = jsOrEmpty ev.actionGroup
    ∧ (costHandler ev plan fetch now).response.function = ev.function
    ∧ (secHandler ev plan fetch now).response.actionGroup = jsOrEmpty ev.actionGroup
    ∧ (secHandler ev plan fetch now).response.function = ev.function
    ∧ (rlHandler ev rlPlan now).1.response.actionGroup = jsOrEmpty ev.actionGroup
    ∧ (rlHandler ev rlPlan now).1.response.function = ev.function := by
  refine ⟨?_, ?_, ?_, ?_, ?_, ?_⟩ <;>
    first
      | (cases h : getFindings fetch plan <;>
          simp [costHandler, h, successEnvelope, errorEnvelope])
      | (cases h : getSecFindings fetch plan <;>
          simp [secHandler, h, successEnvelope, errorEnvelope])
      | (cases hid : extractId ev with
          | none => simp [rlHandler, hid, errorEnvelope]
          | some v =>
            by_cases hv : v = ""
            · simp [rlHandler, hid, hv, errorEnvelope]
            · cases hr : (runResourceList rlPlan none).1 <;>
                simp [rlHandler, hid, hv, hr, successEnvelope, errorEnvelope])

/-- An inbound event that omits both identity fields, as used by the
counterexample to C4 as frozen. -/
def cexEvent : AgentEvent := { actionGroup := none, function := none, parameters := some [] }

/-- Counterexample to C4 as frozen: the claim has the function field
defaulted to the empty string when the event omits it, but the handlers
copy it without a default, so on this concrete event the envelope leaves
it absent rather than empty, on the error path and on the success path. -/
theorem claim_C4_cex :
    (rlHandler cexEvent [] "ts").1.response.function ≠ some ""
    ∧ (costHandler cexEvent [] (fun _ => none) "ts").response.function ≠ some "" := by
  constructor
  · simp [rlHandler, cexEvent, extractId, errorEnvelope]
  · simp [costHandler, cexEvent, getFindings, getFindingsGo, successEnvelope, Except.map]

/-! ## Lemmas about the sort by savings -/

lemma insertBySavings_perm (f : Finding) (l : List Finding) :
    (insertBySavings f l).Perm (f :: l) := by
  induction l with
  | nil => exact List.Perm.refl _
  | cons g gs ih =>
    rw [insertBySavings]
    split
    · exact List.Perm.refl _
    · exact (ih.cons g).trans (List.Perm.swap f g gs)

lemma sortBySavings_perm (l : List Finding) : (sortBySavings l).Perm l := by
  induction l with
  | nil => exact List.Perm.refl _
  | cons f fs ih =>
    exact (insertBySavings_perm f (sortBySavings fs)).trans (ih.cons f)

lemma insertBySavings_pairwise (f : Finding) (l : List Finding)
    (h : List.Pairwise (fun a b => savingsKey b ≤ savingsKey a) l) :
    List.Pairwise (fun a b => savingsKey b ≤ savingsKey a) (insertBySavings f l) := by
  induction l with
  | nil => simp [insertBySavings]
  | cons g gs ih =>
    rw [insertBySavings]
    rcases List.pairwise_cons.mp h with ⟨hg, hgs⟩
    split
    · rename_i hle
      refine List.pairwise_cons.mpr ⟨?_, h⟩
      intro b hb
      rcases List.mem_cons.mp hb with hb | hb
      · subst hb; exact hle
      · exact le_trans (hg b hb) hle
    · rename_i hgt
      refine List.pairwise_cons.mpr ⟨?_, ih hgs⟩
      intro b hb
      have hb2 : b ∈ f :: gs := (insertBySavings_perm f gs).mem_iff.mp hb
      rcases List.mem_cons.mp hb2 with hb2 | hb2
      · subst hb2; omega
      · exact hg b hb2

lemma sortBySavings_pairwise (l : List Finding) :
    List.Pairwise (fun a b => savingsKey b ≤ savingsKey a) (sortBySavings l) := by
  induction l with
  | nil => simp [sortBySavings]
  | cons f fs ih => exact insertBySavings_pairwise f (sortBySavings fs) ih

lemma insertBySavings_filter (f : Finding) (l : List Finding) (k : Int)
    (h : List.Pairwise (fun a b => savingsKey b ≤ savingsKey a) l) :
    (insertBySavings f l).filter (fun g => savingsKey g == k)
      = (f :: l).filter (fun g => savingsKey g == k) := by
  induction l with
  | nil => rfl
  | cons g gs ih =>
    rcases List.pairwise_cons.mp h with ⟨hg, hgs⟩
    rw [insertBySavings]
    split
    · rfl
    · rename_i hgt
      by_cases hgk : savingsKey g = k <;> by_cases hfk : savingsKey f = k
      · omega
      · simp [List.filter_cons, hgk, hfk, ih hgs]
      · simp [List.filter_cons, hgk, hfk, ih hgs]
      · simp [List.filter_cons, hgk, hfk, ih hgs]

lemma sortBySavings_filter (l : List Finding) (k : Int) :
    (sortBySavings l).filter (fun g => savingsKey g == k)
      = l.filter (fun g => savingsKey g == k) := by
  induction l with
  | nil => rfl
  | cons f fs ih =>
    rw [sortBySavings, insertBySavings_filter f (sortBySavings fs) k (sortBySavings_pairwise fs)]
    by_cases hfk : savingsKey f = k <;> simp [List.filter_cons, hfk, ih]

/-- C5. The sort the cost provider applies orders the findings by the
defaulted savings key in non-increasing order, is a permutation of its
input, and is stable: for every key value, the findings carrying that
value appear in the output in their arrival order; and the provider
returns exactly this sort of the accumulated findings. -/
theorem claim_C5 (l : List Finding) :
    List.Pairwise (fun a b => savingsKey b ≤ savingsKey a) (sortBySavings l)
    ∧ (sortBySavings l).Perm l
    ∧ (∀ k : Int, (sortBySavings l).filter (fun g => savingsKey g == k)
        = l.filter (fun g => savingsKey g == k))
    ∧ (∀ (fetch : Summary → Option DetailResponse) (plan : List (Except String Page))
        (res : List Finding), getFindingsGo fetch plan = Except.ok res →
          getFindings fetch plan = Except.ok (sortBySavings res)) := by
  refine ⟨sortBySavings_pairwise l, sortBySavings_perm l,
    fun k => sortBySavings_filter l k, ?_⟩
  intro fetch plan res h
  simp [getFindings, h, Except.map]

/-- A finding fixture carrying only a savings amount and an identifying
tag, for the sort witnesses. -/
def wF (n : Int) (tag : String) : Finding :=
  { recommendationIdentifier := tag, checkName := "", checkId := "", status := ""
    description := "", recommendedAction := "", resourceCount := none
    estimatedMonthlySavings := some n, resources := [] }

/-- Witness for C5: the savings multiset 10, 30, 30, 5 of the spec sorts
to 30(a), 30(b), 10, 5 with the two ties in arrival order, and the
provider wraps the sorted list in its success result. -/
theorem claim_C5_witness :
    getFindings (fun _ => none) [] = Except.ok (sortBySavings [])
    ∧ sortBySavings [wF 10 "a", wF 30 "b", wF 30 "c", wF 5 "d"]
      = [wF 30 "b", wF 30 "c", wF 10 "a", wF 5 "d"] :=
  ⟨(claim_C5 []).2.2.2 (fun _ => none) [] [] rfl, by decide⟩

/-- C6. An event whose parameters array holds no parameter named
recommendationIdentifier fails request validation: the handler returns the
error envelope carrying the thrown message in its body with the REPROMPT
state, and issues zero remote calls. -/
theorem claim_C6 (ev : AgentEvent) (plan : List (Except String RLPage)) (now : String)
    (h : ∀ ps, ev.parameters = some ps → ∀ p ∈ ps, p.name ≠ "recommendationIdentifier") :
    rlHandler ev plan now = (errorEnvelope ev "recommendationIdentifier is required", 0)
    ∧ (rlHandler ev plan now).1.response.responseState = some "REPROMPT"
    ∧ (rlHandler ev plan now).1.response.functionResponse.responseBody.TEXT.body
      = stringify (errJson "recommendationIdentifier is required")
    ∧ (rlHandler ev plan now).2 = 0 := by
  have hid : extractId ev = none := by
    unfold extractId
    cases hp : ev.parameters with
    | none => rfl
    | some ps =>
      have hfind : ps.find? (fun p => p.name == "recommendationIdentifier") = none := by
        apply List.find?_eq_none.mpr
        intro p hp2
        simp [h ps hp p hp2]
      simp [hfind]
  have hmain : rlHandler ev plan now
      = (errorEnvelope ev "recommendationIdentifier is required", 0) := by
    simp [rlHandler, hid]
  exact ⟨hmain, by rw [hmain]; rfl, by rw [hmain]; rfl, by rw [hmain]⟩

/-- An event whose only parameter has a different name, for the C6
witness. -/
def wEvOther : AgentEvent :=
  { actionGroup := some "X", function := some "Y"
    parameters := some [{ name := "other", value := "z" }] }

/-- Witness for C6: the concrete event without the required parameter gets
the validation error envelope and zero remote calls. -/
theorem claim_C6_witness :
    rlHandler wEvOther [] "ts" = (errorEnvelope wEvOther "recommendationIdentifier is required", 0) :=
  (claim_C6 wEvOther [] "ts" (by
    intro ps hps
    simp only [wEvOther, Option.some.injEq] at hps
    subst hps
    decide)).1

/-- C7. A list call that throws after a front of successfully consumed
pages aborts the whole cost pagination with no partial result: the
aggregation evaluates to the thrown error, and the handler produces the
single error envelope with the REPROMPT state whose body carries the error
message instead of any payload. -/
theorem claim_C7 (ev : AgentEvent) (front : List Page) (msg : String)
    (rest : List (Except String Page)) (fetch : Summary → Option DetailResponse)
    (now : String)
    (hf : ∀ p ∈ front, truthy p.nextToken = true) :
    getFindings fetch (front.map Except.ok ++ (Except.error msg :: rest)) = Except.error msg
    ∧ costHandler ev (front.map Except.ok ++ (Except.error msg :: rest)) fetch now
      = errorEnvelope ev msg
    ∧ (costHandler ev (front.map Except.ok ++ (Except.error msg :: rest)) fetch now).response.responseState
      = some "REPROMPT"
    ∧ (costHandler ev (front.map Except.ok ++ (Except.error msg :: rest)) fetch now).response.functionResponse.responseBody.TEXT.body
      = stringify (errJson msg) := by
  have h := getFindingsGo_error fetch front msg rest hf
  have h1 : getFindings fetch (front.map Except.ok ++ (Except.error msg :: rest))
      = Except.error msg := by
    simp [getFindings, h, Except.map]
  have h2 : costHandler ev (front.map Except.ok ++ (Except.error msg :: rest)) fetch now
      = errorEnvelope ev msg := by
    simp [costHandler, h1]
  exact ⟨h1, h2, by rw [h2]; rfl, by rw [h2]; rfl⟩

/-- Witness for C7: one successfully consumed page followed by a throwing
call makes the whole invocation an error envelope with the thrown
message. -/
theorem claim_C7_witness :
    costHandler wEvOther ([cp1].map Except.ok ++ (Except.error "boom" :: [])) wFetch "ts"
      = errorEnvelope wEvOther "boom" :=
  (claim_C7 wEvOther [cp1] "boom" [] wFetch "ts" (by decide)).2.1

/-- Summary fixture carrying both aggregate counts, for the C8 witness. -/
def wAggSummary : Summary :=
  { arn := "arn4", name := "n4", id := "i4", status := "warning"
    pillarSpecificAggregates := none
    resourcesAggregates := some { errorCount := some 2, warningCount := some 3 } }

/-- C8. When a summary carries both aggregate counts the constructed
finding has resourceCount equal to their sum, in the cost and the
security record shape alike; and the construction is total: whatever the
aggregates (present or absent), a summary whose detail fetch succeeds
contributes exactly its finding and enrichment of the rest proceeds. -/
theorem claim_C8 (r : Summary) (d : DetailResponse) :
    (∀ e w : Int, (resourceAggOf r).errorCount = some e →
      (resourceAggOf r).warningCount = some w →
      (mkFinding r d).resourceCount = some (e + w)
      ∧ (mkSecFinding r d).resourceCount = some (e + w))
    ∧ (∀ (fetch : Summary → Option DetailResponse) (rest : List Summary), fetch r = some d →
      enrichCost fetch (r :: rest) = mkFinding r d :: enrichCost fetch rest
      ∧ enrichSec fetch (r :: rest) = mkSecFinding r d :: enrichSec fetch rest) := by
  constructor
  · intro e w he hw
    constructor <;> simp [mkFinding, mkSecFinding, jsAdd, he, hw]
  · intro fetch rest hfr
    constructor <;> simp [enrichCost, enrichSec, hfr]

/-- Witness for C8: a summary with counts 2 and 3 yields resourceCount 5,
and a summary without any aggregates still contributes its finding. -/
theorem claim_C8_witness :
    (mkFinding wAggSummary wDetail).resourceCount = some (2 + 3)
    ∧ enrichCost wFetch (wS1 :: []) = mkFinding wS1 wDetail :: enrichCost wFetch [] :=
  ⟨((claim_C8 wAggSummary wDetail).1 2 3 rfl rfl).1,
   ((claim_C8 wS1 wDetail).2 wFetch [] rfl).1⟩

lemma rawSavings_foldl (l : List Finding)
    (hl : ∀ f ∈ l, (f.estimatedMonthlySavings).isSome = true) :
    ∀ a : Int, l.foldl (fun s f => jsAdd s f.estimatedMonthlySavings) (some a)
      = some (l.foldl (fun s f => s + jsOr0 f.estimatedMonthlySavings) a) := by
  induction l with
  | nil => intro a; rfl
  | cons f fs ih =>
    intro a
    obtain ⟨n, hn⟩ := Option.isSome_iff_exists.mp (hl f (List.mem_cons_self f fs))
    simp only [List.foldl_cons, hn, jsAdd, jsOr0]
    exact ih (fun g hg => hl g (List.mem_cons_of_mem f hg)) (a + n)

/-- C9. Every finding the cost enrichment produces carries a numeric
savings field; a summary whose cost aggregates are absent gets savings 0;
consequently the reduction of the raw savings fields never leaves the
numbers (no NaN arises) and agrees with the defaulted total of the
source. -/
theorem claim_C9 (fetch : Summary → Option DetailResponse) (rs : List Summary) :
    (∀ f ∈ enrichCost fetch rs, ∃ n : Int, f.estimatedMonthlySavings = some n)
    ∧ (∀ (r : Summary) (d : DetailResponse), fetch r = some d →
        (costAggOf r).estimatedMonthlySavings = none →
        (mkFinding r d).estimatedMonthlySavings = some 0)
    ∧ rawSavingsSum (enrichCost fetch rs) = some (totalSavings (enrichCost fetch rs)) := by
  have hsome : ∀ f ∈ enrichCost fetch rs, ∃ n : Int, f.estimatedMonthlySavings = some n := by
    intro f hf
    rw [enrichCost_eq_filterMap] at hf
    rcases List.mem_filterMap.mp hf with ⟨r, hr, hfr⟩
    cases hd : fetch r with
    | none => rw [hd] at hfr; simp at hfr
    | some d =>
      rw [hd] at hfr
      simp only [Option.map_some', Option.some.injEq] at hfr
      subst hfr
      exact ⟨jsOr0 (costAggOf r).estimatedMonthlySavings, rfl⟩
  refine ⟨hsome, ?_, ?_⟩
  · intro r d hrd hagg
    simp [mkFinding, hagg, jsOr0]
  · unfold rawSavingsSum totalSavings
    exact rawSavings_foldl _ (fun f hf => by
      rcases hsome f hf with ⟨n, hn⟩
      simp [hn]) 0

/-- Witness for C9: the concrete summary without cost aggregates yields a
finding whose savings field is the number 0. -/
theorem claim_C9_witness :
    (mkFinding wS1 wDetail).estimatedMonthlySavings = some 0 :=
  (claim_C9 wFetch [wS1]).2.1 wS1 wDetail rfl rfl

/-- C10. A recommendationIdentifier parameter that is present but carries
the empty string is treated exactly like an absent one: the handler
returns the same validation error envelope with the REPROMPT state and
issues zero remote calls. -/
theorem claim_C10 (ev : AgentEvent) (plan : List (Except String RLPage)) (now : String)
    (ps : List Param) (p : Param)
    (hps : ev.parameters = some ps)
    (hfind : ps.find? (fun q => q.name == "recommendationIdentifier") = some p)
    (hval : p.value = "") :
    rlHandler ev plan now = (errorEnvelope ev "recommendationIdentifier is required", 0)
    ∧ (rlHandler ev plan now).1.response.responseState = some "REPROMPT"
    ∧ (rlHandler ev plan now).2 = 0 := by
  have hid : extractId ev = some "" := by
    simp [extractId, hps, hfind, hval]
  have hmain : rlHandler ev plan now
      = (errorEnvelope ev "recommendationIdentifier is required", 0) := by
    simp [rlHandler, hid]
  exact ⟨hmain, by rw [hmain]; rfl, by rw [hmain]⟩

/-- An event whose required parameter is present but empty, for the C10
witness. -/
def wEvEmptyId : AgentEvent :=
  { actionGroup := some "X", function := some "Y"
    parameters := some [{ name := "recommendationIdentifier", value := "" }] }

/-- Witness for C10: the concrete event with the empty identifier value
gets the validation error envelope and zero remote calls. -/
theorem claim_C10_witness :
    rlHandler wEvEmptyId [] "ts"
      = (errorEnvelope wEvEmptyId "recommendationIdentifier is required", 0) :=
  (claim_C10 wEvEmptyId [] "ts" [{ name := "recommendationIdentifier", value := "" }]
    { name := "recommendationIdentifier", value := "" } rfl (by decide) rfl).1

end CloudReportAgent
